import Mathlib

/-!
Verification of the per-site inference driver of the freebayes variant
caller (src/freebayes.cpp) against its natural-language specification.

The driver's data and control flow are shallowly embedded: C++ vectors and
deques become Lean lists (with vector::back() as List.getLast and the
undefined behaviour of back()/erase on an empty vector modelled as
Option.none), long double scores become real numbers, and each loop of
main() becomes a fold or structural recursion.  Helper routines whose
sources live outside the provided tree (logsumexp_probs, the genotype
enumerator, the banded combination search, the combo comparator and the
homozygosity predicate) are modelled from the specification text; each such
definition carries a doc comment saying so.
-/

namespace Freebayes

/-- Modelled from the spec: a Genotype is an unordered-with-repetition
multiset of allele assignments of size equal to ploidy; we represent it as
the list of allele base strings (the Genotype class itself is not under
src/, only its callers are). -/
abbrev Genotype := List String

/-- Modelled from the spec: a GenotypeCombo assigns exactly one Genotype to
each sample under consideration, represented as the list of per-sample
genotypes in sample order. -/
abbrev GenotypeCombo := List Genotype

/-- Modelled from the spec: a genotype has "a single distinct allele" when
all of its allele entries are equal. -/
def genotypeIsHomozygous : Genotype → Bool
  | [] => true
  | a :: rest => rest.all (fun b => b == a)

/-- Modelled from the spec: a GenotypeCombo is classified homozygous when
all samples are assigned a genotype with a single distinct allele
(GenotypeCombo::isHomozygous is declared in a header not under src/). -/
def comboIsHomozygous (c : GenotypeCombo) : Bool :=
  c.all genotypeIsHomozygous

/-- A scored GenotypeCombo as used by main(): the combo together with its
total score `priorComboProb` (summed data likelihood plus prior, stored as
a natural-log value; the C++ long double becomes a real number). -/
structure GenotypeComboResult where
  combo : GenotypeCombo
  priorComboProb : ℝ

/-- The truncation loop of main() (freebayes.cpp lines 299-310): while the
kept results plus the saved homozygous results exceed the posterior
integration depth `k`, pop the lowest-scoring result off the back, saving
it into the `homs` deque when it is homozygous.  `vector::back()` and
`erase(end()-1)` on an empty vector are undefined behaviour in C++; that
path is modelled as `Option.none`. -/
def truncationLoop (k : Nat) :
    List GenotypeComboResult → List GenotypeComboResult →
    Option (List GenotypeComboResult × List GenotypeComboResult)
  | [], homs =>
    if homs.length > k then none else some ([], homs)
  | p :: ps, homs =>
    if (p :: ps).length + homs.length > k then
      truncationLoop k (p :: ps).dropLast
        (if comboIsHomozygous ((p :: ps).getLast (by simp)).combo then
          homs ++ [(p :: ps).getLast (by simp)]
        else homs)
    else some (p :: ps, homs)
termination_by probs _ => probs.length
decreasing_by simp [List.length_dropLast]

/-- The posterior-integration-depth truncation of main() (freebayes.cpp
lines 299-313): when the configured depth `k` is positive, run the
truncation loop and then push the saved homozygous results back onto the
kept list (the subsequent re-sort only permutes the list and is modelled
relationally by `IsStdSortResult`, so membership is decided here). -/
def posteriorIntegration (k : Nat) (probs : List GenotypeComboResult) :
    Option (List GenotypeComboResult) :=
  if k > 0 then
    match truncationLoop k probs [] with
    | none => none
    | some (kept, homs) => some (kept ++ homs)
  else some probs

/-- The comboProbs accumulation loop of main() (freebayes.cpp lines
316-320): push each kept result's total score onto a vector, in order. -/
def comboProbsOf (l : List GenotypeComboResult) : List ℝ :=
  l.foldl (fun acc gc => acc ++ [gc.priorComboProb]) []

/-- Maximum of a nonempty list of scores, written as the left fold the C++
max_element scan performs. -/
def listMax1 (x : ℝ) (xs : List ℝ) : ℝ :=
  xs.foldl max x

/-- Modelled from the spec: `logsumexp_probs` (declared in a utility header
not under src/) is the numerically stable log-sum-exp,
normalizer = max(scores) + log(sum of exp(score - max)).  The spec calls an
empty input a fatal logic error; the value 0 returned here is on that
unreachable branch. -/
noncomputable def logsumexp_probs : List ℝ → ℝ
  | [] => 0
  | x :: xs =>
    listMax1 x xs +
      Real.log (((x :: xs).map (fun s => Real.exp (s - listMax1 x xs))).sum)

/-- The posterior normalizer of main() (freebayes.cpp line 321): log-sum-exp
of the accumulated total scores of the kept results. -/
noncomputable def posteriorNormalizer (l : List GenotypeComboResult) : ℝ :=
  logsumexp_probs (comboProbsOf l)

/-- The pVar loop of main() (freebayes.cpp lines 347-361): starting from
1.0, subtract exp(score - normalizer) for every kept result classified
homozygous.  `safe_exp` (utility header, not under src/) is modelled from
the spec's formula as the real exponential. -/
noncomputable def pVarSite (l : List GenotypeComboResult) (normalizer : ℝ) : ℝ :=
  l.foldl
    (fun p gc =>
      if comboIsHomozygous gc.combo then
        p - Real.exp (gc.priorComboProb - normalizer)
      else p)
    1

/-- Total posterior mass the kept homozygous results carry once normalized
by the posterior normalizer of the same kept list. -/
noncomputable def homMass (l : List GenotypeComboResult) : ℝ :=
  ((l.filter (fun gc => comboIsHomozygous gc.combo)).map
    (fun gc => Real.exp (gc.priorComboProb - posteriorNormalizer l))).sum

/-- The best-combo part of the pVar loop (freebayes.cpp lines 349-361): the
state is (bestCombo, hasHetCombo); the first result not classified
homozygous records its combo and sets the flag, later results leave the
state unchanged. -/
def bestComboStep (st : Option GenotypeCombo × Bool)
    (gc : GenotypeComboResult) : Option GenotypeCombo × Bool :=
  if comboIsHomozygous gc.combo then st
  else if st.2 then st
  else (some gc.combo, true)

/-- The loop over all kept results (freebayes.cpp lines 353-361), folding
the best-combo step from the initial state (no combo, hasHetCombo false). -/
def bestComboState (l : List GenotypeComboResult) : Option GenotypeCombo × Bool :=
  l.foldl bestComboStep (none, false)

/-- The selection exposed after the loop (freebayes.cpp lines 349-366 and
371-372): when the loop found a non-homozygous combo, report it, paired
with `genotypeComboProbs.front().priorComboProb` exactly as line 358 does;
otherwise fall back to the front result's combo and score.  `front()` on an
empty vector is undefined behaviour, modelled as `Option.none`. -/
def selectBestCombo (l : List GenotypeComboResult) :
    Option (GenotypeCombo × ℝ) :=
  match l with
  | [] => none
  | front :: _ =>
    match bestComboState l with
    | (some c, true) => some (c, front.priorComboProb)
    | _ => some (front.combo, front.priorComboProb)

/-- Modelled from the spec: the comparator `GenotypeComboResultSorter`
(declared in a header not under src/) orders results by descending total
score; a list is sorted for it when scores are pairwise nonincreasing. -/
def gcrDescending (a b : GenotypeComboResult) : Prop :=
  b.priorComboProb ≤ a.priorComboProb

/-- The contract of the std::sort calls of main() (freebayes.cpp lines
294-295 and 312): the output is some permutation of the input that is
sorted for the comparator.  The C++ standard leaves the order of
equal-score results unspecified (std::sort is not stable), so the relation
admits every such permutation. -/
def IsStdSortResult (input output : List GenotypeComboResult) : Prop :=
  input.Perm output ∧ output.Sorted gcrDescending

/-- Modelled from the spec: the multiset-selection core of the genotype
enumerator (the multichoose routine included from a header not under src/):
all unordered-with-repetition selections of `k` elements from the list,
each selection listed in input order, recursing on whether the first
element is taken again or dropped for good. -/
def multichoose : Nat → List String → List (List String)
  | 0, _ => [[]]
  | _ + 1, [] => []
  | k + 1, x :: xs =>
    ((multichoose k (x :: xs)).map (fun g => x :: g)) ++ multichoose (k + 1) xs
termination_by k l => (k, l.length)

/-- Modelled from the spec: `allPossibleGenotypes` (declared in a header
not under src/, called at freebayes.cpp line 194) returns one Genotype per
unordered-with-repetition selection of `ploidy` alleles from the candidate
allele set. -/
def allPossibleGenotypes (ploidy : Nat) (alleles : List String) :
    List Genotype :=
  multichoose ploidy alleles

/-- One sample's input to the banded combination search: its ploidy and its
genotype list already sorted by descending data likelihood (the search only
consumes the order, so the likelihood values are left out). -/
structure SampleGenotypeList where
  ploidy : Nat
  sorted : List Genotype

/-- Homozygous genotype for allele base `a` at ploidy `p`. -/
def homGenotype (p : Nat) (a : String) : Genotype :=
  List.replicate p a

/-- The all-homozygous combination for allele base `a`: every sample is
assigned the homozygous genotype for `a` at its own ploidy. -/
def homCombo (samples : List SampleGenotypeList) (a : String) : GenotypeCombo :=
  samples.map (fun s => homGenotype s.ploidy a)

/-- Index tuples of the banded walk: one sorted-list position per sample,
each below its per-sample bound, with the positions summing to at most the
total band `tb`. -/
def indexTuples : List Nat → Nat → List (List Nat)
  | [], _ => [[]]
  | b :: bs, tb =>
    (List.range b).flatMap
      (fun i => if i ≤ tb then (indexTuples bs (tb - i)).map (fun t => i :: t) else [])

/-- Modelled from the spec: the banded walk of the combination search
(section 4.3 steps 1-3 and 5; the routine is declared in a header not under
src/).  Starting from each sample's best genotype (all positions 0), each
sample may substitute a genotype up to `wb` positions down its sorted list,
with total depth bounded by `tb` and the generated-combination count capped
at `stepMax`. -/
def bandedGenotypeCombinations (samples : List SampleGenotypeList)
    (wb tb stepMax : Nat) : List GenotypeCombo :=
  ((indexTuples (samples.map (fun s => min (wb + 1) s.sorted.length)) tb).take
      stepMax).map
    (fun idxs => (samples.zip idxs).map (fun si => si.1.sorted.getD si.2 []))

/-- Modelled from the spec: the full banded search (section 4.3 step 4; the
routine is declared in a header not under src/, called at freebayes.cpp
lines 275-282): the banded walk's combinations, with the all-homozygous
combination for every candidate allele force-included (added when not
already present). -/
def bandedGenotypeCombinationsIncludingAllHomozygousCombos
    (samples : List SampleGenotypeList) (alleleBases : List String)
    (wb tb stepMax : Nat) : List GenotypeCombo :=
  let walk := bandedGenotypeCombinations samples wb tb stepMax
  walk ++
    (alleleBases.map (fun a => homCombo samples a)).filter
      (fun c => !(walk.contains c))

/-- Allele types distinguished by the driver (the Allele class is an
excluded collaborator; only the type tag, base and length reach the code
under verification). -/
inductive AlleleType where
  | reference
  | snp
  | insertion
  | deletion
  | mnp
deriving DecidableEq, Repr

/-- The slice of an Allele the driver's guards and failed-file writer
consume: its type tag, base string and length. -/
structure Allele where
  type : AlleleType
  base : String
  length : Nat
deriving DecidableEq, Repr

/-- Per-position inputs consumed by the guard chain of the main loop
(freebayes.cpp lines 104-181), as delivered by the excluded collaborators:
the reference base string, the in-target indicator, the counted coverage,
the verdict of sufficientAlternateObservations under the configured
thresholds, and the viable genotype-allele set. -/
structure SiteInput where
  refBase : String
  inTarget : Bool
  coverage : Nat
  sufficientAltObs : Bool
  genotypeAlleles : List Allele

/-- The guard chain of the main loop (freebayes.cpp lines 104-181), in
source order: non-ACGT reference base, out-of-target position, zero
coverage, insufficient alternate observations, and a viable genotype-allele
set of size at most one each `continue` to the next position; only when
every guard passes are the expensive stages (data likelihoods, banded
search, priors, posterior aggregation — abstracted as the `expensive`
argument) entered and a processed-site result produced. -/
def processSitePure {α : Type} (inp : SiteInput) (expensive : Unit → α) :
    Option α :=
  if inp.refBase ≠ "A" ∧ inp.refBase ≠ "T" ∧ inp.refBase ≠ "C" ∧ inp.refBase ≠ "G" then
    none
  else if !inp.inTarget then none
  else if inp.coverage = 0 then none
  else if !inp.sufficientAltObs then none
  else if inp.genotypeAlleles.length ≤ 1 then none
  else some (expensive ())

/-- Configuration consumed by the output block of main() (freebayes.cpp
lines 413-478). -/
structure OutputConfig where
  suppressOutput : Bool
  output : String
  PVL : ℝ
  failedFileSet : Bool
  reportAllAlternates : Bool

/-- Records the output block can emit to the main output stream: the JSON
site record, or one VCF record per reported alternate base (rendering
itself is an excluded collaborator; only which records are emitted is
modelled). -/
inductive OutputRecord where
  | jsonRec : OutputRecord
  | vcfRec : String → OutputRecord
deriving DecidableEq, Repr

/-- One line of the failed-positions BED file (freebayes.cpp lines 467-476):
sequence name, position, position plus allele length, allele base. -/
abbrev FailedLine := String × Nat × Nat × String

/-- The output block of main() (freebayes.cpp lines 413-478): nothing when
output is suppressed; otherwise the JSON record is written whenever the
JSON format is selected, before and independently of the pVar-PVL
comparison; when pVar is at least PVL the VCF format writes one record per
alternate (or just the front alternate), and otherwise, when a
failed-positions file is configured, every non-reference genotype allele is
written to that file.  Returns (main-output records, failed-file lines). -/
noncomputable def outputStage (cfg : OutputConfig) (pVar : ℝ) (alternates : List String)
    (seq : String) (position : Nat) (genotypeAlleles : List Allele) :
    List OutputRecord × List FailedLine :=
  if cfg.suppressOutput then ([], [])
  else
    let jsonPart : List OutputRecord :=
      if cfg.output = "json" then [OutputRecord.jsonRec] else []
    if cfg.PVL ≤ pVar then
      let vcfPart : List OutputRecord :=
        if cfg.output = "vcf" then
          if cfg.reportAllAlternates then alternates.map OutputRecord.vcfRec
          else
            match alternates with
            | [] => []
            | alt :: _ => [OutputRecord.vcfRec alt]
        else []
      (jsonPart ++ vcfPart, [])
    else
      (jsonPart,
        if cfg.failedFileSet then
          (genotypeAlleles.filter (fun ga => ga.type ≠ AlleleType.reference)).map
            (fun ga => (seq, position, position + ga.length, ga.base))
        else [])

/-! ### Helper lemmas -/

lemma comboProbs_foldl (l : List GenotypeComboResult) (init : List ℝ) :
    l.foldl (fun acc gc => acc ++ [gc.priorComboProb]) init =
      init ++ l.map (fun gc => gc.priorComboProb) := by
  induction l generalizing init with
  | nil => simp
  | cons gc rest ih => simp [ih]

lemma comboProbsOf_eq_map (l : List GenotypeComboResult) :
    comboProbsOf l = l.map (fun gc => gc.priorComboProb) := by
  simpa using comboProbs_foldl l []

lemma le_listMax1_init : ∀ (xs : List ℝ) (x : ℝ), x ≤ listMax1 x xs
  | [], _ => le_refl _
  | y :: ys, x => le_trans (le_max_left x y) (le_listMax1_init ys (max x y))

lemma listMax1_mem : ∀ (xs : List ℝ) (x : ℝ), listMax1 x xs ∈ x :: xs
  | [], x => by simp [listMax1]
  | y :: ys, x => by
    have h : listMax1 x (y :: ys) = listMax1 (max x y) ys := rfl
    rw [h]
    rcases List.mem_cons.mp (listMax1_mem ys (max x y)) with h1 | h1
    · rcases max_choice x y with hm | hm
      · rw [h1, hm]; exact List.mem_cons_self _ _
      · rw [h1, hm]; exact List.mem_cons_of_mem _ (List.mem_cons_self _ _)
    · exact List.mem_cons_of_mem _ (List.mem_cons_of_mem _ h1)

lemma le_listMax1 : ∀ (xs : List ℝ) (x y : ℝ), y ∈ x :: xs → y ≤ listMax1 x xs
  | [], x, y, h => by
    rw [List.mem_singleton] at h
    simp [listMax1, h]
  | z :: zs, x, y, h => by
    have hrw : listMax1 x (z :: zs) = listMax1 (max x z) zs := rfl
    rw [hrw]
    rcases List.mem_cons.mp h with h1 | h1
    · rw [h1]; exact le_trans (le_max_left x z) (le_listMax1_init zs (max x z))
    · rcases List.mem_cons.mp h1 with h2 | h2
      · rw [h2]; exact le_trans (le_max_right x z) (le_listMax1_init zs (max x z))
      · exact le_listMax1 zs (max x z) y (List.mem_cons_of_mem _ h2)

lemma pVar_foldl_eq (norm : ℝ) :
    ∀ (l : List GenotypeComboResult) (a : ℝ),
      l.foldl
        (fun p gc =>
          if comboIsHomozygous gc.combo then
            p - Real.exp (gc.priorComboProb - norm)
          else p) a =
      a - ((l.filter (fun gc => comboIsHomozygous gc.combo)).map
        (fun gc => Real.exp (gc.priorComboProb - norm))).sum
  | [], a => by simp
  | gc :: rest, a => by
    by_cases h : comboIsHomozygous gc.combo
    · rw [List.foldl_cons, if_pos h, pVar_foldl_eq norm rest _]
      simp only [List.filter_cons, h, if_true, List.map_cons, List.sum_cons]
      ring
    · have hf : comboIsHomozygous gc.combo = false := by simpa using h
      rw [List.foldl_cons, if_neg h, pVar_foldl_eq norm rest a]
      simp only [List.filter_cons, hf, Bool.false_eq_true, if_false]

lemma bestComboStep_fixed (c : GenotypeCombo) (gc : GenotypeComboResult) :
    bestComboStep (some c, true) gc = (some c, true) := by
  by_cases h : comboIsHomozygous gc.combo <;> simp [bestComboStep, h]

lemma foldl_bestComboStep_fixed :
    ∀ (l : List GenotypeComboResult) (c : GenotypeCombo),
      l.foldl bestComboStep (some c, true) = (some c, true)
  | [], _ => rfl
  | gc :: rest, c => by
    rw [List.foldl_cons, bestComboStep_fixed]
    exact foldl_bestComboStep_fixed rest c

lemma bestComboState_dropWhile (l : List GenotypeComboResult) :
    bestComboState l =
      match l.dropWhile (fun gc => comboIsHomozygous gc.combo) with
      | [] => (none, false)
      | gc :: _ => (some gc.combo, true) := by
  induction l with
  | nil => rfl
  | cons gc rest ih =>
    by_cases h : comboIsHomozygous gc.combo
    · have hstep : bestComboStep (none, false) gc = (none, false) := by
        simp [bestComboStep, h]
      rw [bestComboState, List.foldl_cons, hstep,
        List.dropWhile_cons_of_pos (by simpa using h)]
      exact ih
    · have hstep : bestComboStep (none, false) gc = (some gc.combo, true) := by
        simp [bestComboStep, h]
      rw [bestComboState, List.foldl_cons, hstep, foldl_bestComboStep_fixed,
        List.dropWhile_cons_of_neg (by simpa using h)]

lemma dropWhile_head_false {p : GenotypeComboResult → Bool} :
    ∀ (l : List GenotypeComboResult) (gc : GenotypeComboResult)
      (rest : List GenotypeComboResult),
      l.dropWhile p = gc :: rest → p gc = false
  | [], _, _, h => by simp at h
  | y :: tl, gc, rest, h => by
    by_cases hy : p y
    · rw [List.dropWhile_cons_of_pos hy] at h
      exact dropWhile_head_false tl gc rest h
    · rw [List.dropWhile_cons_of_neg hy] at h
      rw [← (List.cons.injEq ..).mp h |>.1]
      simpa using hy

/-! ### Claim theorems -/

/-- C1: the claim says truncation to depth K never drops a homozygous
combo, including when K is smaller than the homozygous-combo count.  On the
code this fails: the truncation loop's total (kept plus saved) never
decreases while the popped result is homozygous, so with K = 1 and two
homozygous results the loop empties the result vector and then evaluates
vector::back() and erase(end()-1) on the empty vector — undefined behaviour,
modelled as Option.none, instead of a kept set containing both homozygous
combos. -/
theorem C1_truncation_underflow :
    posteriorIntegration 1
      [⟨[["A", "A"]], (1 : ℝ)⟩, ⟨[["T", "T"]], (0 : ℝ)⟩] = none := by
  simp [posteriorIntegration, truncationLoop, comboIsHomozygous,
    genotypeIsHomozygous, List.getLast]

/-- C2: the pVar loop computes 1 minus the summed normalized posterior mass
of the kept homozygous results (with the normalizer the log-sum-exp of the
kept total scores), and whenever that homozygous mass is at most 1, pVar
lies in [0, 1]. -/
theorem C2_pVar_in_unit_interval (l : List GenotypeComboResult)
    (h : homMass l ≤ 1) :
    pVarSite l (posteriorNormalizer l) = 1 - homMass l ∧
    0 ≤ pVarSite l (posteriorNormalizer l) ∧
    pVarSite l (posteriorNormalizer l) ≤ 1 := by
  have he : pVarSite l (posteriorNormalizer l) = 1 - homMass l :=
    pVar_foldl_eq (posteriorNormalizer l) l 1
  have h0 : 0 ≤ homMass l := by
    apply List.sum_nonneg
    intro x hx
    rcases List.mem_map.mp hx with ⟨gc, _, rfl⟩
    exact le_of_lt (Real.exp_pos _)
  exact ⟨he, by rw [he]; linarith, by rw [he]; linarith⟩

/-- C2 witness: with no kept results the homozygous mass is 0 and pVar is
exactly 1. -/
theorem C2_pVar_in_unit_interval_witness :
    pVarSite [] (posteriorNormalizer []) = 1 - homMass [] ∧
    0 ≤ pVarSite [] (posteriorNormalizer []) ∧
    pVarSite [] (posteriorNormalizer []) ≤ 1 :=
  C2_pVar_in_unit_interval [] (by norm_num [homMass])

/-- C4: the claim says the total score exposed alongside the best combo is
the selected combo's own total score, also when the selected combo is a
heterozygous result that is not the top of the sorted list.  On the code
this fails: line 358 pairs the selected heterozygous combo with
genotypeComboProbs.front().priorComboProb.  With a homozygous front of
score 5 and a heterozygous second result of score 3, the selection exposes
([["A", "T"]], 5): the heterozygous combo with the front's score 5, not its
own score 3. -/
theorem C4_exposed_score_is_front_score :
    selectBestCombo
        [⟨[["A", "A"]], (5 : ℝ)⟩, ⟨[["A", "T"]], (3 : ℝ)⟩] =
      some ([["A", "T"]], (5 : ℝ)) ∧ (5 : ℝ) ≠ (3 : ℝ) := by
  constructor
  · rfl
  · norm_num

/-- C5: the posterior normalizer is the log-sum-exp of the kept results'
total scores; log-sum-exp of any nonempty score list is at least the list
maximum, and when all scores are equal it equals the maximum plus the log
of the score count. -/
theorem C5_logsumexp_normalizer (l : List GenotypeComboResult) (x : ℝ)
    (xs : List ℝ) :
    posteriorNormalizer l =
      logsumexp_probs (l.map (fun gc => gc.priorComboProb)) ∧
    listMax1 x xs ≤ logsumexp_probs (x :: xs) ∧
    (∀ c : ℝ, (∀ s ∈ x :: xs, s = c) →
      logsumexp_probs (x :: xs) =
        listMax1 x xs + Real.log ((x :: xs).length : ℝ)) := by
  refine ⟨?_, ?_, ?_⟩
  · rw [posteriorNormalizer, comboProbsOf_eq_map]
  · show listMax1 x xs ≤ listMax1 x xs + Real.log _
    have hmem : Real.exp (listMax1 x xs - listMax1 x xs) ∈
        (x :: xs).map (fun s => Real.exp (s - listMax1 x xs)) :=
      List.mem_map_of_mem _ (listMax1_mem xs x)
    have hone : (1 : ℝ) ≤
        ((x :: xs).map (fun s => Real.exp (s - listMax1 x xs))).sum := by
      have hs := List.single_le_sum
        (fun y hy => by
          rcases List.mem_map.mp hy with ⟨s, _, rfl⟩
          exact le_of_lt (Real.exp_pos _)) _ hmem
      simpa using hs
    have hlog := Real.log_nonneg hone
    linarith
  · intro c hc
    have hm : listMax1 x xs = c := hc _ (listMax1_mem xs x)
    have hmap : (x :: xs).map (fun s => Real.exp (s - listMax1 x xs)) =
        List.replicate (x :: xs).length (1 : ℝ) := by
      rw [List.eq_replicate_iff]
      refine ⟨by simp, ?_⟩
      intro b hb
      rcases List.mem_map.mp hb with ⟨s, hs, rfl⟩
      rw [hc s hs, hm]
      simp
    show listMax1 x xs + Real.log _ = _
    rw [hmap, List.sum_replicate, nsmul_eq_mul, mul_one]

/-- C5 witness: instantiation at the singleton score list [0] and the empty
kept-result list. -/
theorem C5_logsumexp_normalizer_witness :
    posteriorNormalizer [] =
      logsumexp_probs (([] : List GenotypeComboResult).map
        (fun gc => gc.priorComboProb)) ∧
    listMax1 0 [] ≤ logsumexp_probs [0] ∧
    (∀ c : ℝ, (∀ s ∈ [(0 : ℝ)], s = c) →
      logsumexp_probs [0] =
        listMax1 0 [] + Real.log (([(0 : ℝ)]).length : ℝ)) :=
  C5_logsumexp_normalizer [] 0 []

/-- C3: for a nonempty sorted result list, the combo selected for reporting
is the first result not classified homozygous — the head of the list after
dropping the homozygous-classified prefix — when such a result exists, and
otherwise the front (top-scoring) result's combo. -/
theorem C3_best_combo_selection (l : List GenotypeComboResult) (h : l ≠ []) :
    ((∀ gc ∈ l, comboIsHomozygous gc.combo = true) →
      (selectBestCombo l).map Prod.fst = some (l.head h).combo) ∧
    (∀ gc rest,
      l.dropWhile (fun g => comboIsHomozygous g.combo) = gc :: rest →
      (selectBestCombo l).map Prod.fst = some gc.combo ∧
        gc ∈ l ∧ comboIsHomozygous gc.combo = false) := by
  match l with
  | front :: tl =>
    constructor
    · intro hall
      have hdrop : (front :: tl).dropWhile
          (fun g => comboIsHomozygous g.combo) = [] := by
        rw [List.dropWhile_eq_nil_iff]
        intro x hx
        simpa using hall x hx
      have hstate := bestComboState_dropWhile (front :: tl)
      rw [hdrop] at hstate
      simp [selectBestCombo, hstate]
    · intro gc rest hdrop
      have hstate := bestComboState_dropWhile (front :: tl)
      rw [hdrop] at hstate
      refine ⟨by simp [selectBestCombo, hstate], ?_, ?_⟩
      · exact (List.dropWhile_sublist
          (fun g => comboIsHomozygous g.combo)).subset
          (hdrop ▸ List.mem_cons_self gc rest)
      · exact dropWhile_head_false (front :: tl) gc rest hdrop

/-- C3 witness: on a singleton list whose only combo is homozygous, the
fallback selects the front combo. -/
theorem C3_best_combo_selection_witness :
    (selectBestCombo [⟨[["A", "A"]], (1 : ℝ)⟩]).map Prod.fst =
      some [["A", "A"]] :=
  (C3_best_combo_selection [⟨[["A", "A"]], (1 : ℝ)⟩]
      (List.cons_ne_nil _ _)).1
    (by
      intro gc hgc
      rw [List.mem_singleton] at hgc
      rw [hgc]
      rfl)

/-- C8: the claim says the sort of the results is descending by total score
and stable for exact score ties.  The descending part holds (see
C8_descending_permutation), but stability fails on the code: the sorts use
std::sort, whose contract (modelled by IsStdSortResult) admits any sorted
permutation, and for the two-element input with tied scores below, the
swapped output is also a valid std::sort result even though it reverses the
input order of the tied pair. -/
theorem C8_stability_counterexample :
    IsStdSortResult
        [⟨[["A", "A"]], (1 : ℝ)⟩, ⟨[["A", "T"]], (1 : ℝ)⟩]
        [⟨[["A", "T"]], (1 : ℝ)⟩, ⟨[["A", "A"]], (1 : ℝ)⟩] ∧
      ([⟨[["A", "T"]], (1 : ℝ)⟩, ⟨[["A", "A"]], (1 : ℝ)⟩] :
          List GenotypeComboResult) ≠
        [⟨[["A", "A"]], (1 : ℝ)⟩, ⟨[["A", "T"]], (1 : ℝ)⟩] := by
  refine ⟨⟨List.Perm.swap _ _ _, ?_⟩, ?_⟩
  · simp [List.sorted_cons, gcrDescending]
  · intro heq
    have hcombo := congrArg
      (fun m : List GenotypeComboResult => (m.headD ⟨[], 0⟩).combo) heq
    simp at hcombo

/-- C8 amended: every output the sorting contract admits is a permutation
of the input whose total scores are nonincreasing along the whole list;
the order of results with exactly equal scores is left unspecified. -/
theorem C8_descending_permutation (input output : List GenotypeComboResult)
    (h : IsStdSortResult input output) :
    output.length = input.length ∧
    (∀ r, r ∈ output ↔ r ∈ input) ∧
    (∀ i j : Fin output.length, i ≤ j →
      (output.get j).priorComboProb ≤ (output.get i).priorComboProb) := by
  obtain ⟨hp, hs⟩ := h
  refine ⟨hp.length_eq.symm, fun r => hp.mem_iff.symm, ?_⟩
  intro i j hij
  rcases eq_or_lt_of_le hij with heq | hlt
  · rw [heq]
  · exact hs.rel_get_of_lt hlt

/-- C8 witness: the identity sort of a singleton satisfies the contract and
the amended conclusions. -/
theorem C8_descending_permutation_witness :
    ([⟨[["A", "A"]], (1 : ℝ)⟩] : List GenotypeComboResult).length =
      ([⟨[["A", "A"]], (1 : ℝ)⟩] : List GenotypeComboResult).length ∧
    (∀ r, r ∈ ([⟨[["A", "A"]], (1 : ℝ)⟩] : List GenotypeComboResult) ↔
      r ∈ ([⟨[["A", "A"]], (1 : ℝ)⟩] : List GenotypeComboResult)) ∧
    (∀ i j : Fin ([⟨[["A", "A"]], (1 : ℝ)⟩] :
        List GenotypeComboResult).length, i ≤ j →
      (([⟨[["A", "A"]], (1 : ℝ)⟩] :
          List GenotypeComboResult).get j).priorComboProb ≤
        (([⟨[["A", "A"]], (1 : ℝ)⟩] :
          List GenotypeComboResult).get i).priorComboProb) :=
  C8_descending_permutation _ _ ⟨List.Perm.refl _, List.sorted_singleton _⟩

/-! ### Lemmas about the genotype enumerator -/

lemma multichoose_length :
    ∀ (k : Nat) (l : List String),
      (multichoose k l).length = Nat.multichoose l.length k
  | 0, l => by simp [multichoose, Nat.multichoose_zero_right]
  | k + 1, [] => by simp [multichoose, Nat.multichoose_zero_succ]
  | k + 1, x :: xs => by
    rw [multichoose, List.length_append, List.length_map,
      multichoose_length k (x :: xs), multichoose_length (k + 1) xs,
      List.length_cons, Nat.multichoose_succ_succ]
    omega
termination_by k l => (k, l.length)

lemma multichoose_mem_length :
    ∀ (k : Nat) (l : List String) (g : List String),
      g ∈ multichoose k l → g.length = k
  | 0, l, g, hg => by
    rw [multichoose] at hg
    simp at hg
    simp [hg]
  | k + 1, [], g, hg => by simp [multichoose] at hg
  | k + 1, x :: xs, g, hg => by
    rw [multichoose, List.mem_append] at hg
    rcases hg with hg | hg
    · rcases List.mem_map.mp hg with ⟨g0, hg0, rfl⟩
      simp [multichoose_mem_length k (x :: xs) g0 hg0]
    · exact multichoose_mem_length (k + 1) xs g hg
termination_by k l => (k, l.length)

lemma multichoose_mem_subset :
    ∀ (k : Nat) (l : List String) (g : List String),
      g ∈ multichoose k l → ∀ a ∈ g, a ∈ l
  | 0, l, g, hg => by
    rw [multichoose] at hg
    simp at hg
    simp [hg]
  | k + 1, [], g, hg => by simp [multichoose] at hg
  | k + 1, x :: xs, g, hg => by
    rw [multichoose, List.mem_append] at hg
    rcases hg with hg | hg
    · rcases List.mem_map.mp hg with ⟨g0, hg0, rfl⟩
      intro a ha
      rcases List.mem_cons.mp ha with rfl | ha
      · exact List.mem_cons_self _ _
      · exact multichoose_mem_subset k (x :: xs) g0 hg0 a ha
    · intro a ha
      exact List.mem_cons_of_mem _
        (multichoose_mem_subset (k + 1) xs g hg a ha)
termination_by k l => (k, l.length)

lemma multichoose_nodup :
    ∀ (k : Nat) (l : List String), l.Nodup → (multichoose k l).Nodup
  | 0, l, _ => by rw [multichoose]; simp
  | k + 1, [], _ => by rw [multichoose]; simp
  | k + 1, x :: xs, h => by
    rw [multichoose, List.nodup_append]
    obtain ⟨hx, hxs⟩ := List.nodup_cons.mp h
    refine ⟨?_, multichoose_nodup (k + 1) xs hxs, ?_⟩
    · exact (multichoose_nodup k (x :: xs) h).map
        (fun g1 g2 he => (List.cons.injEq .. ).mp he |>.2)
    · intro g hg1 hg2
      rcases List.mem_map.mp hg1 with ⟨g0, _, rfl⟩
      exact hx (multichoose_mem_subset (k + 1) xs _ hg2 x
        (List.mem_cons_self _ _))
termination_by k l => (k, l.length)

/-- C9: for ploidy p at least 1 and a duplicate-free candidate allele set of
size n at least p, the genotype enumerator produces exactly
C(n + p - 1, p) genotypes, each of size exactly p, with no duplicates. -/
theorem C9_genotype_enumerator_count (p : Nat) (alleles : List String)
    (hp : 1 ≤ p) (hn : p ≤ alleles.length) (hnd : alleles.Nodup) :
    (allPossibleGenotypes p alleles).length =
      (alleles.length + p - 1).choose p ∧
    (∀ g ∈ allPossibleGenotypes p alleles, g.length = p) ∧
    (allPossibleGenotypes p alleles).Nodup := by
  refine ⟨?_, fun g hg => multichoose_mem_length p alleles g hg,
    multichoose_nodup p alleles hnd⟩
  rw [allPossibleGenotypes, multichoose_length, Nat.multichoose_eq]

/-- C9 witness: diploid enumeration over three alleles yields
C(3 + 2 - 1, 2) = 6 genotypes of size 2. -/
theorem C9_genotype_enumerator_count_witness :
    (allPossibleGenotypes 2 ["A", "T", "G"]).length =
      ((["A", "T", "G"] : List String).length + 2 - 1).choose 2 ∧
    (∀ g ∈ allPossibleGenotypes 2 ["A", "T", "G"], g.length = 2) ∧
    (allPossibleGenotypes 2 ["A", "T", "G"]).Nodup :=
  C9_genotype_enumerator_count 2 ["A", "T", "G"] (by decide) (by decide)
    (by decide)

/-! ### Lemmas about the banded search's forced homozygous combos -/

lemma genotypeIsHomozygous_replicate (p : Nat) (a : String) :
    genotypeIsHomozygous (List.replicate p a) = true := by
  cases p with
  | zero => rfl
  | succ n =>
    rw [List.replicate_succ, genotypeIsHomozygous, List.all_eq_true]
    intro b hb
    rw [List.eq_of_mem_replicate hb]
    simp

lemma comboIsHomozygous_homCombo (samples : List SampleGenotypeList)
    (a : String) : comboIsHomozygous (homCombo samples a) = true := by
  rw [comboIsHomozygous, List.all_eq_true]
  intro g hg
  rcases List.mem_map.mp hg with ⟨s, _, rfl⟩
  exact genotypeIsHomozygous_replicate s.ploidy a

lemma homCombo_mem_banded (samples : List SampleGenotypeList)
    (alleleBases : List String) (wb tb stepMax : Nat) (a : String)
    (ha : a ∈ alleleBases) :
    homCombo samples a ∈
      bandedGenotypeCombinationsIncludingAllHomozygousCombos samples
        alleleBases wb tb stepMax := by
  rw [bandedGenotypeCombinationsIncludingAllHomozygousCombos]
  by_cases hc : (bandedGenotypeCombinations samples wb tb stepMax).contains
      (homCombo samples a)
  · exact List.mem_append_left _ (by simpa using hc)
  · refine List.mem_append_right _ (List.mem_filter.mpr ⟨?_, ?_⟩)
    · exact List.mem_map_of_mem _ ha
    · simpa using hc

lemma homCombo_injective (samples : List SampleGenotypeList)
    (hs : samples ≠ []) (hp : ∀ s ∈ samples, 1 ≤ s.ploidy) :
    Function.Injective (fun a => homCombo samples a) := by
  intro a b hab
  match samples, hs with
  | s :: rest, _ =>
    simp only [homCombo, List.map_cons, List.cons.injEq] at hab
    have hp1 : 1 ≤ s.ploidy := hp s (List.mem_cons_self _ _)
    obtain ⟨n, hn⟩ : ∃ n, s.ploidy = n + 1 := ⟨s.ploidy - 1, by omega⟩
    have := hab.1
    rw [homGenotype, homGenotype, hn, List.replicate_succ,
      List.replicate_succ, List.cons.injEq] at this
    exact this.1

/-- C6: the banded combination search, for any band width, total band and
step cap, includes for every candidate allele the combination in which
every sample is homozygous for that allele; with at least one sample, all
ploidies positive and a duplicate-free allele set these forced combos are
pairwise distinct, so the output contains at least as many distinct
homozygous-classified combos as there are candidate alleles. -/
theorem C6_banded_includes_all_homozygous (samples : List SampleGenotypeList)
    (alleleBases : List String) (wb tb stepMax : Nat)
    (hs : samples ≠ []) (hp : ∀ s ∈ samples, 1 ≤ s.ploidy)
    (hnd : alleleBases.Nodup) :
    (∀ a ∈ alleleBases,
      homCombo samples a ∈
        bandedGenotypeCombinationsIncludingAllHomozygousCombos samples
          alleleBases wb tb stepMax ∧
      comboIsHomozygous (homCombo samples a) = true) ∧
    alleleBases.length ≤
      ((bandedGenotypeCombinationsIncludingAllHomozygousCombos samples
          alleleBases wb tb stepMax).filter
        (fun c => comboIsHomozygous c)).toFinset.card := by
  refine ⟨fun a ha => ⟨homCombo_mem_banded samples alleleBases wb tb
    stepMax a ha, comboIsHomozygous_homCombo samples a⟩, ?_⟩
  have hHnd : (alleleBases.map (fun a => homCombo samples a)).Nodup :=
    hnd.map (homCombo_injective samples hs hp)
  have hsub : ∀ c ∈ alleleBases.map (fun a => homCombo samples a),
      c ∈ (bandedGenotypeCombinationsIncludingAllHomozygousCombos samples
        alleleBases wb tb stepMax).filter (fun c => comboIsHomozygous c) := by
    intro c hc
    rcases List.mem_map.mp hc with ⟨a, ha, rfl⟩
    exact List.mem_filter.mpr
      ⟨homCombo_mem_banded samples alleleBases wb tb stepMax a ha,
        comboIsHomozygous_homCombo samples a⟩
  calc alleleBases.length
      = (alleleBases.map (fun a => homCombo samples a)).length := by
        rw [List.length_map]
    _ = (alleleBases.map (fun a => homCombo samples a)).toFinset.card :=
        (List.toFinset_card_of_nodup hHnd).symm
    _ ≤ _ := by
        apply Finset.card_le_card
        intro c hc
        rw [List.mem_toFinset] at hc ⊢
        exact hsub c hc

/-- C6 witness: one diploid sample, candidate alleles A and T, band width 1,
total band 1, step cap 5. -/
theorem C6_banded_includes_all_homozygous_witness :
    (∀ a ∈ (["A", "T"] : List String),
      homCombo [⟨2, [["A", "A"]]⟩] a ∈
        bandedGenotypeCombinationsIncludingAllHomozygousCombos
          [⟨2, [["A", "A"]]⟩] ["A", "T"] 1 1 5 ∧
      comboIsHomozygous (homCombo [⟨2, [["A", "A"]]⟩] a) = true) ∧
    (["A", "T"] : List String).length ≤
      ((bandedGenotypeCombinationsIncludingAllHomozygousCombos
          [⟨2, [["A", "A"]]⟩] ["A", "T"] 1 1 5).filter
        (fun c => comboIsHomozygous c)).toFinset.card :=
  C6_banded_includes_all_homozygous [⟨2, [["A", "A"]]⟩] ["A", "T"] 1 1 5
    (List.cons_ne_nil _ _) (by decide) (by decide)

/-- C7: whenever the reference base is not one of A, C, G, T, or the
position is out of target, or coverage is zero, or alternate observations
are insufficient, or the viable genotype-allele set has size at most one,
the per-position body skips silently — it produces no result, for every
possible expensive-stage computation, so data likelihoods, the banded
search, prior scoring and posterior aggregation are never entered. -/
theorem C7_guards_skip_silently {α : Type} (inp : SiteInput)
    (expensive : Unit → α)
    (h : inp.refBase ∉ (["A", "T", "C", "G"] : List String) ∨
      inp.inTarget = false ∨ inp.coverage = 0 ∨
      inp.sufficientAltObs = false ∨ inp.genotypeAlleles.length ≤ 1) :
    processSitePure inp expensive = none := by
  rw [processSitePure]
  split_ifs with h1 h2 h3 h4 h5
  · rfl
  · rfl
  · rfl
  · rfl
  · rfl
  · exfalso
    rcases h with h | h | h | h | h
    · simp only [List.mem_cons, List.not_mem_nil, or_false, not_or] at h
      exact h1 ⟨h.1, h.2.1, h.2.2.1, h.2.2.2⟩
    · rw [h] at h2
      simp at h2
    · exact h3 h
    · rw [h] at h4
      simp at h4
    · exact h5 h

/-- C7 witness: a site with reference base N and otherwise passing inputs
is skipped, whatever the expensive stages would have computed. -/
theorem C7_guards_skip_silently_witness :
    processSitePure
      ⟨"N", true, 3, true,
        [⟨AlleleType.reference, "A", 1⟩, ⟨AlleleType.snp, "T", 1⟩]⟩
      (fun _ => (0 : Nat)) = none :=
  C7_guards_skip_silently _ _ (Or.inl (by decide))

/-- C10: with output not suppressed, the JSON record is emitted for every
processed position whenever the JSON format is selected, whatever the
relation of pVar to the reporting threshold PVL; only the VCF record is
gated on pVar being at least PVL; and when pVar is below PVL and a
failed-positions file is configured, exactly the non-reference genotype
alleles are written to that file, while nothing is added to the
failed-positions file when pVar reaches the threshold. -/
theorem C10_json_always_vcf_gated (cfg : OutputConfig) (pVar : ℝ)
    (alternates : List String) (seq : String) (position : Nat)
    (gas : List Allele) (h : cfg.suppressOutput = false) :
    (cfg.output = "json" →
      (outputStage cfg pVar alternates seq position gas).1 =
        [OutputRecord.jsonRec]) ∧
    (cfg.output = "vcf" → ¬ cfg.PVL ≤ pVar →
      (outputStage cfg pVar alternates seq position gas).1 = []) ∧
    (cfg.output = "vcf" → cfg.PVL ≤ pVar →
      cfg.reportAllAlternates = true →
      (outputStage cfg pVar alternates seq position gas).1 =
        alternates.map OutputRecord.vcfRec) ∧
    (cfg.PVL ≤ pVar →
      (outputStage cfg pVar alternates seq position gas).2 = []) ∧
    (¬ cfg.PVL ≤ pVar → cfg.failedFileSet = true →
      (outputStage cfg pVar alternates seq position gas).2 =
        (gas.filter (fun ga => ga.type ≠ AlleleType.reference)).map
          (fun ga => (seq, position, position + ga.length, ga.base))) := by
  rw [outputStage.eq_def, h]
  simp only [Bool.false_eq_true, if_false]
  by_cases hpv : cfg.PVL ≤ pVar
  · rw [if_pos hpv]
    refine ⟨?_, ?_, ?_, fun _ => rfl, fun hn _ => absurd hpv hn⟩
    · intro hj
      rw [if_pos hj, if_neg (by rw [hj]; decide)]
      simp
    · intro _ hn
      exact absurd hpv hn
    · intro hv _ hall
      rw [if_neg (by rw [hv]; decide), if_pos hv, if_pos hall]
      simp
  · rw [if_neg hpv]
    refine ⟨?_, ?_, ?_, fun hy => absurd hy hpv, ?_⟩
    · intro hj
      rw [if_pos hj]
    · intro hv _
      rw [if_neg (by rw [hv]; decide)]
    · intro _ hy
      exact absurd hy hpv
    · intro _ hf
      rw [if_pos hf]

/-- C10 witness: JSON output selected, pVar below the threshold, failed
file configured. -/
theorem C10_json_always_vcf_gated_witness :
    ((⟨false, "json", (1 : ℝ), true, false⟩ : OutputConfig).output =
        "json" →
      (outputStage ⟨false, "json", (1 : ℝ), true, false⟩ 0 ["T"] "chr" 7
        [⟨AlleleType.snp, "T", 1⟩]).1 = [OutputRecord.jsonRec]) ∧
    ((⟨false, "json", (1 : ℝ), true, false⟩ : OutputConfig).output =
        "vcf" →
      ¬ (⟨false, "json", (1 : ℝ), true, false⟩ : OutputConfig).PVL ≤
          (0 : ℝ) →
      (outputStage ⟨false, "json", (1 : ℝ), true, false⟩ 0 ["T"] "chr" 7
        [⟨AlleleType.snp, "T", 1⟩]).1 = []) ∧
    ((⟨false, "json", (1 : ℝ), true, false⟩ : OutputConfig).output =
        "vcf" →
      (⟨false, "json", (1 : ℝ), true, false⟩ : OutputConfig).PVL ≤
          (0 : ℝ) →
      (⟨false, "json", (1 : ℝ), true, false⟩ :
          OutputConfig).reportAllAlternates = true →
      (outputStage ⟨false, "json", (1 : ℝ), true, false⟩ 0 ["T"] "chr" 7
        [⟨AlleleType.snp, "T", 1⟩]).1 =
        (["T"] : List String).map OutputRecord.vcfRec) ∧
    ((⟨false, "json", (1 : ℝ), true, false⟩ : OutputConfig).PVL ≤
        (0 : ℝ) →
      (outputStage ⟨false, "json", (1 : ℝ), true, false⟩ 0 ["T"] "chr" 7
        [⟨AlleleType.snp, "T", 1⟩]).2 = []) ∧
    (¬ (⟨false, "json", (1 : ℝ), true, false⟩ : OutputConfig).PVL ≤
        (0 : ℝ) →
      (⟨false, "json", (1 : ℝ), true, false⟩ :
          OutputConfig).failedFileSet = true →
      (outputStage ⟨false, "json", (1 : ℝ), true, false⟩ 0 ["T"] "chr" 7
        [⟨AlleleType.snp, "T", 1⟩]).2 =
        (([⟨AlleleType.snp, "T", 1⟩] : List Allele).filter
          (fun ga => ga.type ≠ AlleleType.reference)).map
          (fun ga => ("chr", 7, 7 + ga.length, ga.base))) :=
  C10_json_always_vcf_gated ⟨false, "json", (1 : ℝ), true, false⟩ 0 ["T"]
    "chr" 7 [⟨AlleleType.snp, "T", 1⟩] rfl

end Freebayes
